import Mathlib

/-!
Verification of the btclog leveled structured-log renderer.

Go strings are modelled as lists of byte values (`List Nat`, each entry `< 256`
by construction when produced from a literal).  Pure functions of the source are
translated directly; the impure collaborators (the io.Writer sink, the runtime
call-site resolver, the time source) are passed as explicit function values.
A Go panic during value stringification is modelled as the `Except.error` case
of the fallible stringifier, and the `defer`/`recover` block of `appendValue`
as the catch on that `Except`.
-/

namespace Btclog

/-- Encode one unicode scalar value as its UTF-8 bytes
(mirrors Go `utf8.AppendRune`; invalid runes encode `U+FFFD`). -/
def utf8EncodeRune (r : Nat) : List Nat :=
  if r < 0x80 then [r]
  else if r < 0x800 then [0xC0 + r / 0x40, 0x80 + r % 0x40]
  else if r < 0x10000 then
    if 0xD800 ≤ r ∧ r ≤ 0xDFFF then [0xEF, 0xBF, 0xBD]
    else [0xE0 + r / 0x1000, 0x80 + r / 0x40 % 0x40, 0x80 + r % 0x40]
  else if r ≤ 0x10FFFF then
    [0xF0 + r / 0x40000, 0x80 + r / 0x1000 % 0x40, 0x80 + r / 0x40 % 0x40,
      0x80 + r % 0x40]
  else [0xEF, 0xBF, 0xBD]

/-- The bytes of a Go string literal: UTF-8 encoding of its characters. -/
def goStr (s : String) : List Nat :=
  (s.data.map (fun c => utf8EncodeRune c.toNat)).flatten

/-- Decimal digits of a natural number (fuel-structured so that the kernel can
evaluate it; `natDecAux n n` is exact for every `n`). -/
def natDecAux : Nat → Nat → List Nat
  | 0, n => [48 + n % 10]
  | f + 1, n => if n < 10 then [48 + n] else natDecAux f (n / 10) ++ [48 + n % 10]

/-- Decimal rendering of a natural number, as bytes. -/
def natDec (n : Nat) : List Nat := natDecAux n n

/-- Decimal rendering of an integer, as bytes (Go `%d`). -/
def intDec (n : Int) : List Nat :=
  if n < 0 then 45 :: natDec (-n).toNat else natDec n.toNat

/-- Go `%+d`: decimal with an explicit sign. -/
def plusIntDec (n : Int) : List Nat :=
  if 0 ≤ n then 43 :: natDec n.toNat else 45 :: natDec (-n).toNat

/-! ## Level (source file `log_level.go`, `src/unnamed/part_000`)

`Level` is `slog.Level`, a signed integer:
Trace = -5, Debug = -4, Info = 0, Warn = 4, Error = 8, Critical = 9, Off = 10.
-/

def LevelTrace : Int := -5
def LevelDebug : Int := -4
def LevelInfo : Int := 0
def LevelWarn : Int := 4
def LevelError : Int := 8
def LevelCritical : Int := 9
def LevelOff : Int := 10

/-- The helper closure `str` inside `Level.String`: base name, with the offset
appended via `%+d` when it is non-zero. -/
def levelBaseStr (base : String) (val : Int) : List Nat :=
  if val = 0 then goStr base else goStr base ++ plusIntDec val

/-- `Level.String` from `src/unnamed/part_000` lines 56-82. -/
def levelString (l : Int) : List Nat :=
  if LevelOff ≤ l then goStr "OFF"
  else if l < LevelDebug then levelBaseStr "TRC" (l - LevelTrace)
  else if l < LevelInfo then levelBaseStr "DBG" (l - LevelDebug)
  else if l < LevelWarn then levelBaseStr "INF" (l - LevelInfo)
  else if l < LevelError then levelBaseStr "WRN" (l - LevelWarn)
  else if l < LevelCritical then levelBaseStr "ERR" (l - LevelError)
  else levelBaseStr "CRT" (l - LevelCritical)

/-- ASCII lower-casing of a byte string (the reach of `strings.ToLower` on the
inputs compared by `LevelFromString`: all candidate keywords are ASCII). -/
def goToLower (s : List Nat) : List Nat :=
  s.map (fun b => if 65 ≤ b ∧ b ≤ 90 then b + 32 else b)

/-- `LevelFromString` from `src/unnamed/part_000` lines 28-47. -/
def levelFromString (s : List Nat) : Int × Bool :=
  let t := goToLower s
  if t = goStr "trace" ∨ t = goStr "trc" then (LevelTrace, true)
  else if t = goStr "debug" ∨ t = goStr "dbg" then (LevelDebug, true)
  else if t = goStr "info" ∨ t = goStr "inf" then (LevelInfo, true)
  else if t = goStr "warn" ∨ t = goStr "wrn" then (LevelWarn, true)
  else if t = goStr "error" ∨ t = goStr "err" then (LevelError, true)
  else if t = goStr "critical" ∨ t = goStr "crt" then (LevelCritical, true)
  else if t = goStr "off" then (LevelOff, true)
  else (LevelInfo, false)

/-! ## UTF-8 decoding helpers

Go's `utf8.DecodeRuneInString` is inlined at its use sites below (the byte
loops recurse structurally on the list, consuming the bytes of one encoded
rune per step).  These helpers are the accept-ranges of Go's decoder:
a 2-byte form is `C2..DF` + continuation; a 3-byte form is `E0..EF` with a
restricted second byte (`E0` ⇒ `A0..BF`, `ED` ⇒ `80..9F`); a 4-byte form is
`F0..F4` with a restricted second byte (`F0` ⇒ `90..BF`, `F4` ⇒ `80..8F`).
-/

/-- A UTF-8 continuation byte: `80..BF`. -/
def isCont (b : Nat) : Bool := decide (0x80 ≤ b ∧ b ≤ 0xBF)

/-- Lower bound for the second byte of a multi-byte form. -/
def b1Lo (b0 : Nat) : Nat := if b0 = 0xE0 then 0xA0 else if b0 = 0xF0 then 0x90 else 0x80

/-- Upper bound for the second byte of a multi-byte form. -/
def b1Hi (b0 : Nat) : Nat := if b0 = 0xED then 0x9F else if b0 = 0xF4 then 0x8F else 0xBF

/-- Accept test for the second byte of a multi-byte form. -/
def okB1 (b0 b1 : Nat) : Bool := decide (b1Lo b0 ≤ b1 ∧ b1 ≤ b1Hi b0)

/-- Scalar value of a 2-byte UTF-8 form. -/
def rune2 (b0 b1 : Nat) : Nat := (b0 - 0xC0) * 0x40 + (b1 - 0x80)

/-- Scalar value of a 3-byte UTF-8 form. -/
def rune3 (b0 b1 b2 : Nat) : Nat :=
  (b0 - 0xE0) * 0x1000 + (b1 - 0x80) * 0x40 + (b2 - 0x80)

/-- Scalar value of a 4-byte UTF-8 form. -/
def rune4 (b0 b1 b2 b3 : Nat) : Nat :=
  (b0 - 0xF0) * 0x40000 + (b1 - 0x80) * 0x1000 + (b2 - 0x80) * 0x40 + (b3 - 0x80)

/-- Go `utf8.ValidRune`: in range and not a UTF-16 surrogate. -/
def validRune (r : Nat) : Bool := decide (r ≤ 0x10FFFF ∧ ¬(0xD800 ≤ r ∧ r ≤ 0xDFFF))

/-- Go `unicode.IsSpace` (the Unicode `White_Space` property — an exact,
finite table). -/
def unicodeIsSpace (r : Nat) : Bool :=
  decide (r = 9 ∨ r = 10 ∨ r = 11 ∨ r = 12 ∨ r = 13 ∨ r = 32 ∨ r = 0x85 ∨
    r = 0xA0 ∨ r = 0x1680 ∨ (0x2000 ≤ r ∧ r ≤ 0x200A) ∨ r = 0x2028 ∨
    r = 0x2029 ∨ r = 0x202F ∨ r = 0x205F ∨ r = 0x3000)

/-! ## needsQuoting (source `src/unnamed/part_001` lines 318-342) -/

/-- `safeSet` from `src/unnamed/part_001` lines 352-449: the literal content of
the 128-entry table — true for every ASCII byte except the control characters
(0–31), the double quote and the backslash. -/
def safeSet (b : Nat) : Bool := decide (32 ≤ b ∧ b ≤ 0x7F ∧ b ≠ 34 ∧ b ≠ 92)

/-- The non-ASCII test of `needsQuoting`: quote when the decoded code point is
`utf8.RuneError`, a space, or not printable.  `unicode.IsPrint` is the one
external Unicode table not reproduced here; it is passed in as `ip`. -/
def nqRune (ip : Nat → Bool) (r : Nat) : Bool :=
  decide (r = 0xFFFD) || unicodeIsSpace r || !ip r

/-- Go `utf8.DecodeRuneInString` for a first byte `≥ 0x80`: `some (r, size)`
when `b :: rest` starts with a valid multi-byte encoding of `r`, `none` when
it does not (Go returns `(RuneError, 1)` there).  First-byte classes: below
`0xC2` or above `0xF4` invalid; below `0xE0` two bytes; below `0xF0` three;
else four. -/
def decode2 (b : Nat) : List Nat → Option (Nat × Nat)
  | b1 :: _ => if isCont b1 then some (rune2 b b1, 2) else none
  | [] => none

def decode3 (b : Nat) : List Nat → Option (Nat × Nat)
  | b1 :: b2 :: _ => if okB1 b b1 ∧ isCont b2 then some (rune3 b b1 b2, 3) else none
  | _ => none

def decode4 (b : Nat) : List Nat → Option (Nat × Nat)
  | b1 :: b2 :: b3 :: _ =>
    if okB1 b b1 ∧ isCont b2 ∧ isCont b3 then some (rune4 b b1 b2 b3, 4) else none
  | _ => none

def utf8DecodeMB (b : Nat) (rest : List Nat) : Option (Nat × Nat) :=
  if b < 0xC2 ∨ 0xF4 < b then none
  else if b < 0xE0 then decode2 b rest
  else if b < 0xF0 then decode3 b rest
  else decode4 b rest

/-- The byte loop of `needsQuoting`, fuelled (one unit per scanned token; the
wrapper supplies `s.length`, always sufficient since every step consumes at
least one byte).  ASCII bytes are tested against `safeSet`
(`b != '\\' && (b == ' ' || b == '=' || !safeSet[b])`); a non-ASCII prefix is
decoded and its code point tested by `nqRune`; any decode failure is
`utf8.RuneError` and quotes. -/
def nqLoopF (ip : Nat → Bool) : Nat → List Nat → Bool
  | 0, _ => false
  | _ + 1, [] => false
  | f + 1, b :: rest =>
    if b < 0x80 then
      if b ≠ 92 ∧ (b = 32 ∨ b = 61 ∨ safeSet b = false) then true
      else nqLoopF ip f rest
    else
      match utf8DecodeMB b rest with
      | some (r, n) => if nqRune ip r then true else nqLoopF ip f (rest.drop (n - 1))
      | none => true

/-- `needsQuoting`: an empty string needs quoting, otherwise scan the bytes. -/
def needsQuoting (ip : Nat → Bool) (s : List Nat) : Bool :=
  if s.isEmpty then true else nqLoopF ip s.length s

/-! ## strconv.Quote / strconv.Unquote

`appendString` calls `strconv.AppendQuote`; the claims about the rendered
token need the stdlib quoting routine and its matching unquoting routine.
Both are translated from Go's `strconv/quote.go` (double-quote form,
`ASCIIonly = graphicOnly = false`), with `strconv.IsPrint` passed in as `ip`.
-/

/-- Lower-case hexadecimal digit byte. -/
def lhex (d : Nat) : Nat := if d < 10 then 48 + d else 87 + d

/-- A `\xHH` escape for one byte. -/
def escx (b : Nat) : List Nat := [92, 120, lhex (b / 16), lhex (b % 16)]

/-- Four lower-case hex digit bytes of `v` (for `\uHHHH`). -/
def hex4 (v : Nat) : List Nat :=
  [lhex (v / 0x1000 % 16), lhex (v / 0x100 % 16), lhex (v / 16 % 16), lhex (v % 16)]

/-- Eight lower-case hex digit bytes of `v` (for `\UHHHHHHHH`): the four
digits of the high half followed by the four of the low half. -/
def hex8 (v : Nat) : List Nat := hex4 (v / 0x10000) ++ hex4 v

/-- Go `appendEscapedRune` for the double-quote form: quote and backslash are
always backslashed; printable runes are emitted as their UTF-8 bytes; the
named control escapes, then `\xHH`, `\uHHHH` or `\UHHHHHHHH`. -/
def escRune (ip : Nat → Bool) (r : Nat) : List Nat :=
  if r = 34 ∨ r = 92 then [92, r]
  else if ip r then utf8EncodeRune r
  else if r = 7 then [92, 97]
  else if r = 8 then [92, 98]
  else if r = 12 then [92, 102]
  else if r = 10 then [92, 110]
  else if r = 13 then [92, 114]
  else if r = 9 then [92, 116]
  else if r = 11 then [92, 118]
  else if r < 32 ∨ r = 127 then escx r
  else if ¬ validRune r then [92, 117] ++ hex4 0xFFFD
  else if r < 0x10000 then [92, 117] ++ hex4 r
  else [92, 85] ++ hex8 r

/-- The body loop of Go `appendQuotedWith`, fuelled (one unit per rune; the
wrapper supplies `s.length`): an invalid byte is emitted as `\xHH`, a decoded
rune through `escRune`. -/
def quoteBodyF (ip : Nat → Bool) : Nat → List Nat → List Nat
  | 0, _ => []
  | _ + 1, [] => []
  | f + 1, b :: rest =>
    if b < 0x80 then escRune ip b ++ quoteBodyF ip f rest
    else
      match utf8DecodeMB b rest with
      | some (r, n) => escRune ip r ++ quoteBodyF ip f (rest.drop (n - 1))
      | none => escx b ++ quoteBodyF ip f rest

/-- The body of `strconv.Quote`. -/
def quoteBody (ip : Nat → Bool) (s : List Nat) : List Nat :=
  quoteBodyF ip s.length s

/-- Go `strconv.Quote`: open quote, escaped body, close quote. -/
def goQuote (ip : Nat → Bool) (s : List Nat) : List Nat :=
  34 :: quoteBody ip s ++ [34]

/-- Value of one hexadecimal digit byte (Go `unhex`). -/
def hexVal (c : Nat) : Option Nat :=
  if 48 ≤ c ∧ c ≤ 57 then some (c - 48)
  else if 97 ≤ c ∧ c ≤ 102 then some (c - 87)
  else if 65 ≤ c ∧ c ≤ 70 then some (c - 55)
  else none

/-- Parse two hexadecimal digit bytes (for `\xHH`). -/
def hex2Parse : List Nat → Option (Nat × List Nat)
  | h1 :: h2 :: rest =>
    match hexVal h1, hexVal h2 with
    | some x1, some x2 => some (16 * x1 + x2, rest)
    | _, _ => none
  | _ => none

/-- Parse four hexadecimal digit bytes (for `\uHHHH`). -/
def hex4Parse : List Nat → Option (Nat × List Nat)
  | h1 :: h2 :: h3 :: h4 :: rest =>
    match hexVal h1, hexVal h2, hexVal h3, hexVal h4 with
    | some x1, some x2, some x3, some x4 =>
      some (((x1 * 16 + x2) * 16 + x3) * 16 + x4, rest)
    | _, _, _, _ => none
  | _ => none

/-- Parse eight hexadecimal digit bytes (for `\UHHHHHHHH`). -/
def hex8Parse (l : List Nat) : Option (Nat × List Nat) :=
  match hex4Parse l with
  | some (hi, rest) =>
    match hex4Parse rest with
    | some (lo, rest2) => some (hi * 0x10000 + lo, rest2)
    | none => none
  | none => none

/-- Parse the two remaining octal digits of a `\ooo` escape whose first digit
byte is `e`. -/
def octParse (e : Nat) : List Nat → Option (Nat × List Nat)
  | o1 :: o2 :: rest =>
    if 48 ≤ o1 ∧ o1 ≤ 55 ∧ 48 ≤ o2 ∧ o2 ≤ 55 then
      some ((e - 48) * 64 + (o1 - 48) * 8 + (o2 - 48), rest)
    else none
  | _ => none

/-- The escape arm of Go `strconv.UnquoteChar` (the byte after a backslash
and the input following it): `some (emitted bytes, remaining input)`, or
`none` for `ErrSyntax`.  A decoded value is emitted as a single byte when it
is below `0x80` or came from a single-byte (`\xHH`, octal, named) escape, and
as its UTF-8 encoding otherwise. -/
def unqEsc (e : Nat) (rest2 : List Nat) : Option (List Nat × List Nat) :=
  if e = 97 then some ([7], rest2)
  else if e = 98 then some ([8], rest2)
  else if e = 102 then some ([12], rest2)
  else if e = 110 then some ([10], rest2)
  else if e = 114 then some ([13], rest2)
  else if e = 116 then some ([9], rest2)
  else if e = 118 then some ([11], rest2)
  else if e = 120 then
    match hex2Parse rest2 with
    | some (v, rest3) => some ([v], rest3)
    | none => none
  else if e = 117 then
    match hex4Parse rest2 with
    | some (v, rest3) =>
      if validRune v then
        some (if v < 0x80 then ([v], rest3) else (utf8EncodeRune v, rest3))
      else none
    | none => none
  else if e = 85 then
    match hex8Parse rest2 with
    | some (v, rest3) =>
      if validRune v then
        some (if v < 0x80 then ([v], rest3) else (utf8EncodeRune v, rest3))
      else none
    | none => none
  else if 48 ≤ e ∧ e ≤ 55 then
    match octParse e rest2 with
    | some (v, rest3) => if v ≤ 255 then some ([v], rest3) else none
    | none => none
  else if e = 92 then some ([92], rest2)
  else if e = 39 then some ([39], rest2)
  else if e = 34 then some ([34], rest2)
  else none

/-- The loop of Go `strconv.Unquote` after the opening double quote, fuelled
(one unit per `UnquoteChar` step; the wrapper supplies the body length):
repeated `UnquoteChar` steps until the closing quote, which must end the
input; `none` is the ErrSyntax error of Go.  A raw multi-byte prefix is decoded and
re-encoded (an invalid one decodes to `(RuneError, 1)` and re-encodes as
`U+FFFD`); a backslash dispatches to the escape arm `unqEsc`. -/
def unqLoopF : Nat → List Nat → Option (List Nat)
  | 0, _ => none
  | _ + 1, [] => none
  | f + 1, c :: rest =>
    if c = 34 then if rest.isEmpty then some [] else none
    else if c = 10 then none
    else if 0x80 ≤ c then
      match utf8DecodeMB c rest with
      | some (r, n) => (unqLoopF f (rest.drop (n - 1))).map (fun o => utf8EncodeRune r ++ o)
      | none => (unqLoopF f rest).map (fun o => utf8EncodeRune 0xFFFD ++ o)
    else if c ≠ 92 then (unqLoopF f rest).map (fun o => c :: o)
    else
      match rest with
      | [] => none
      | e :: rest2 =>
        match unqEsc e rest2 with
        | some (em, rem) => (unqLoopF f rem).map (fun o => em ++ o)
        | none => none

/-- Go `strconv.Unquote` restricted to the double-quote form (the only form
`strconv.Quote` produces): an opening quote followed by the unquote loop. -/
def goUnquote (s : List Nat) : Option (List Nat) :=
  match s with
  | 34 :: body => unqLoopF body.length body
  | _ => none

/-! ## The spec's needs-quoting characterization (§4.3)

The spec states the predicate as a property of the decoded content of the
string.  `utf8Toks` splits a byte string into its ASCII bytes, decoded code
points, and invalid bytes; the spec predicate is an `any` over those tokens.
-/

/-- One token of a byte string: an ASCII byte, a decoded multi-byte code
point, or a byte at which UTF-8 decoding fails. -/
inductive UTok : Type
  | ascii (b : Nat)
  | rune (r : Nat)
  | bad
deriving DecidableEq

/-- Fuelled tokenizer (one unit per token; the wrapper supplies `s.length`). -/
def toksF : Nat → List Nat → List UTok
  | 0, _ => []
  | _ + 1, [] => []
  | f + 1, b :: rest =>
    if b < 0x80 then .ascii b :: toksF f rest
    else
      match utf8DecodeMB b rest with
      | some (r, n) => .rune r :: toksF f (rest.drop (n - 1))
      | none => .bad :: toksF f rest

/-- Tokenization of a byte string, consuming one ASCII byte, one valid
multi-byte encoding, or one invalid byte per step. -/
def utf8Toks (s : List Nat) : List UTok := toksF s.length s

/-- The claim's ASCII trigger, as written: a byte below 0x20, a space, `=`,
a double quote, or a backslash. -/
def claimAsciiTrigger (b : Nat) : Bool :=
  decide (b < 0x20 ∨ b = 32 ∨ b = 61 ∨ b = 34 ∨ b = 92)

/-- The amended ASCII trigger: as the claim, minus the backslash (which the
source deliberately leaves unquoted). -/
def amendedAsciiTrigger (b : Nat) : Bool :=
  decide (b < 0x20 ∨ b = 32 ∨ b = 61 ∨ b = 34)

/-- Whether one token triggers the spec's quoting predicate: a triggering
ASCII byte, a code point that is invalid (`U+FFFD`), a space, or
non-printable, or an invalid multi-byte sequence. -/
def specTokTrigger (asciiT : Nat → Bool) (ip : Nat → Bool) : UTok → Bool
  | .ascii b => asciiT b
  | .rune r => nqRune ip r
  | .bad => true

/-- The spec-style needs-quoting predicate over tokens: empty string, or some
triggering token. -/
def specNeedsQuoting (asciiT : Nat → Bool) (ip : Nat → Bool) (s : List Nat) : Bool :=
  s.isEmpty || (utf8Toks s).any (specTokTrigger asciiT ip)

/-! ## Attribute values (slog.Value at the encoder boundary)

Following the design note of spec §9, the dynamic `slog.Value` is modelled as
a closed tagged variant, resolved once per value.  `vany` carries the result
of `fmt.Sprintf("%+v", v.Any())`: `Except.ok` the produced text, or
`Except.error` the description of a panic raised inside the conversion (a Go
panic is the error case of the fallible conversion; `appendValue`'s
`defer`/`recover` is the catch on it).  `vnone` is the zero `slog.Value`
(kind `KindAny`, nil), whose `%+v` text is `<nil>`.
-/

instance instDecEqExcept {α β : Type} [DecidableEq α] [DecidableEq β] :
    DecidableEq (Except α β)
  | Except.ok a, Except.ok b =>
    if h : a = b then Decidable.isTrue (by rw [h])
    else Decidable.isFalse (by intro hh; cases hh; exact h rfl)
  | Except.ok _, Except.error _ => Decidable.isFalse (by intro hh; cases hh)
  | Except.error _, Except.ok _ => Decidable.isFalse (by intro hh; cases hh)
  | Except.error a, Except.error b =>
    if h : a = b then Decidable.isTrue (by rw [h])
    else Decidable.isFalse (by intro hh; cases hh; exact h rfl)

inductive GoValue : Type
  | vnone
  | vstr (s : List Nat)
  | vint (n : Int)
  | vany (conv : Except (List Nat) (List Nat))
deriving DecidableEq

/-- A `slog.Attr`: key and (resolved) value. -/
structure GoAttr : Type where
  key : List Nat
  value : GoValue
deriving DecidableEq

/-- `appendString` from `src/unnamed/part_004` lines 299-305: quote when
`needsQuoting`, else emit the raw text. -/
def appendString (ip : Nat → Bool) (buf s : List Nat) : List Nat :=
  if needsQuoting ip s then buf ++ goQuote ip s else buf ++ s

/-! ## Handler state (source `src/unnamed/part_004`) -/

/-- `Llongfile` caller flag (flags file not under src; the v1 btclog values). -/
def Llongfile : Nat := 1

/-- `Lshortfile` caller flag. -/
def Lshortfile : Nat := 2

/-- Modelled from the spec (§6): the startup-time default caller flags come
from an environment-style flag source not present under src; absent the
environment flag no call-site annotation is selected. -/
def defaultFlags : Nat := 0

/-- `handlerOpts` from `src/unnamed/part_004` lines 19-28.  The Go
`timeSource func() time.Time` and the record time are modelled as the
pre-rendered timestamp text (`writeTimestamp`'s fixed-width rendering is not
under src; see `writeTimestamp` below). -/
structure HandlerOpts : Type where
  flag : Nat
  withTimestamp : Bool
  timeSource : Option (List Nat)
  callSiteSkipDepth : Nat
  styledLevel : Int → List Nat
  styledCallSite : List Nat → Int → List Nat
  styledKey : List Nat → List Nat

/-- `defaultHandlerOpts` from `src/unnamed/part_004` lines 31-46. -/
def defaultHandlerOpts : HandlerOpts where
  flag := defaultFlags
  withTimestamp := true
  timeSource := none
  callSiteSkipDepth := 6
  styledLevel := fun level => 91 :: levelString level ++ [93]
  styledCallSite := fun file line => file ++ [58] ++ intDec line
  styledKey := fun s => s

/-- A `HandlerOption` is a mutation of `handlerOpts`. -/
def HandlerOption : Type := HandlerOpts → HandlerOpts

/-- `WithCallerFlags`. -/
def withCallerFlags (flags : Nat) : HandlerOption := fun o => { o with flag := flags }

/-- `WithTimeSource` (the source given by its rendered text). -/
def withTimeSource (t : List Nat) : HandlerOption := fun o => { o with timeSource := some t }

/-- `WithCallSiteSkipDepth`. -/
def withCallSiteSkipDepth (depth : Nat) : HandlerOption :=
  fun o => { o with callSiteSkipDepth := depth }

/-- `WithNoTimestamp`. -/
def withNoTimestamp : HandlerOption := fun o => { o with withTimestamp := false }

/-- `DefaultHandler` from `src/unnamed/part_004` lines 103-115.  The pooled
buffer and the mutex are heap allocations identified here by allocation ids
(`bufId`, `muId`); a derivation allocates fresh ids, so id inequality models
"not shared".  The sink `w` maps the written bytes to `some` error message or
`none` (a successful write). -/
structure DefaultHandler : Type where
  opts : HandlerOpts
  level : Int
  tag : List Nat
  fields : List GoAttr
  callstackOffset : Bool
  flag : Nat
  bufId : Nat
  muId : Nat
  w : List Nat → Option (List Nat)

/-- `Level()`: the atomically loaded threshold. -/
def handlerLevel (d : DefaultHandler) : Int := d.level

/-- `SetLevel`: atomically store a new threshold. -/
def setLevel (d : DefaultHandler) (level : Int) : DefaultHandler := { d with level := level }

/-- `NewDefaultHandler` from `src/unnamed/part_004` lines 137-150: default
options mutated by the supplied functional options, threshold `LevelInfo`,
a fresh buffer and mutex. -/
def newDefaultHandler (w : List Nat → Option (List Nat))
    (options : List HandlerOption) : DefaultHandler where
  opts := options.foldl (fun o f => f o) defaultHandlerOpts
  level := LevelInfo
  tag := []
  fields := []
  callstackOffset := false
  flag := 0
  bufId := 0
  muId := 1
  w := w

/-- `Enabled` from `src/unnamed/part_004` lines 155-157:
`atomic.LoadInt64(&d.level) <= int64(level)`. -/
def enabled (d : DefaultHandler) (level : Int) : Bool := decide (d.level ≤ level)

/-- `with` from `src/unnamed/part_004` lines 254-271 (named `withDerive` here
since `with` is reserved): copy the handler, allocate a fresh buffer and a
fresh mutex (`fresh`, `fresh + 1` against an id supply), copy the bound fields
and append the extra attributes, set the callstack-offset flag and the tag. -/
def withDerive (d : DefaultHandler) (tag : List Nat) (withCallstackOffset : Bool)
    (attrs : List GoAttr) (fresh : Nat) : DefaultHandler :=
  { d with
    bufId := fresh
    muId := fresh + 1
    fields := d.fields ++ attrs
    callstackOffset := withCallstackOffset
    tag := tag }

/-- `WithAttrs` from `src/unnamed/part_004` lines 226-228. -/
def withAttrs (d : DefaultHandler) (attrs : List GoAttr) (fresh : Nat) : DefaultHandler :=
  withDerive d d.tag true attrs fresh

/-- `WithGroup` from `src/unnamed/part_004` lines 235-240: append the group
name to a non-empty existing tag with a `.` separator. -/
def withGroup (d : DefaultHandler) (name : List Nat) (fresh : Nat) : DefaultHandler :=
  withDerive d (if d.tag = [] then name else d.tag ++ [46] ++ name) true [] fresh

/-- `SubSystem` from `src/unnamed/part_004` lines 247-249. -/
def subSystem (d : DefaultHandler) (tag : List Nat) (fresh : Nat) : DefaultHandler :=
  withDerive d tag false [] fresh

/-! ## Line assembly (`Handle`, `src/unnamed/part_004` lines 162-221) -/

/-- `appendKey` from `src/unnamed/part_004` lines 307-315. -/
def appendKey (ip : Nat → Bool) (d : DefaultHandler) (buf key : List Nat) : List Nat :=
  let k := if needsQuoting ip key then goQuote ip key else key
  buf ++ [32] ++ d.opts.styledKey (k ++ [61])

/-- `appendTextValue` from `src/unnamed/part_004` lines 330-339, as the
fallible conversion: a panic inside the `%+v` conversion of a `KindAny` value
propagates (`Except.error`); every other kind renders its text. -/
def appendTextValue (ip : Nat → Bool) (buf : List Nat) :
    GoValue → Except (List Nat) (List Nat)
  | GoValue.vstr s => Except.ok (appendString ip buf s)
  | GoValue.vany (Except.ok s) => Except.ok (appendString ip buf s)
  | GoValue.vany (Except.error d) => Except.error d
  | GoValue.vnone => Except.ok (appendString ip buf (goStr "<nil>"))
  | GoValue.vint n => Except.ok (appendString ip buf (intDec n))

/-- `appendValue` from `src/unnamed/part_004` lines 317-328: the
`defer`/`recover` block catches a panic from `appendTextValue` and appends
`"!PANIC: <description>"` through `appendString` instead. -/
def appendValue (ip : Nat → Bool) (buf : List Nat) (v : GoValue) : List Nat :=
  match appendTextValue ip buf v with
  | Except.ok b => b
  | Except.error d => appendString ip buf (goStr "!PANIC: " ++ d)

/-- `appendAttr` from `src/unnamed/part_004` lines 273-284: resolve (values
here are already resolved), drop an attribute equal to the zero `slog.Attr`
(empty key and zero value), else append key and value. -/
def appendAttr (ip : Nat → Bool) (d : DefaultHandler) (buf : List Nat) (a : GoAttr) :
    List Nat :=
  if a.key = [] ∧ a.value = GoValue.vnone then buf
  else appendValue ip (appendKey ip d buf a.key) a.value

/-- A `slog.Record`: the (optional, pre-rendered) time, level, message, and
the ordered attributes visited by `r.Attrs`. -/
structure GoRecord : Type where
  time : Option (List Nat)
  level : Int
  message : List Nat
  attrs : List GoAttr

/-- Modelled from the spec (§4.5 step 3): `writeTimestamp` (not under src)
renders the time as fixed-width space-terminated text; the time value is
carried pre-rendered, so the write appends it plus the space. -/
def writeTimestamp (buf t : List Nat) : List Nat := buf ++ t ++ [32]

/-- `writeCallSite` from `src/unnamed/part_004` lines 290-297. -/
def writeCallSite (d : DefaultHandler) (buf file : List Nat) (line : Int) : List Nat :=
  if file = [] then buf
  else buf ++ [32] ++ d.opts.styledCallSite file line

/-- The line assembled by `Handle` (`src/unnamed/part_004` lines 162-221):
timestamp, level, tag, call-site, `": "`, message, bound fields, record
attributes, newline.  `cs` is the impure `callsite` resolver (flag, skip) ↦
(file, line), passed explicitly. -/
def handleLine (ip : Nat → Bool) (cs : Nat → Nat → List Nat × Int)
    (d : DefaultHandler) (r : GoRecord) : List Nat :=
  let buf : List Nat := []
  let buf := if d.opts.withTimestamp then
      match d.opts.timeSource with
      | some t => writeTimestamp buf t
      | none =>
        match r.time with
        | some t => writeTimestamp buf t
        | none => buf
    else buf
  let buf := buf ++ d.opts.styledLevel r.level
  let buf := if d.tag ≠ [] then buf ++ [32] ++ d.tag else buf
  let buf := if d.opts.flag &&& (Lshortfile ||| Llongfile) ≠ 0 then
      let skipBase := d.opts.callSiteSkipDepth
      let skip := if d.callstackOffset ∧ 2 ≤ skipBase then skipBase - 2 else skipBase
      let fl := cs d.opts.flag skip
      writeCallSite d buf fl.1 fl.2
    else buf
  let buf := buf ++ [58, 32]
  let buf := if r.message ≠ [] then buf ++ r.message else buf
  let buf := d.fields.foldl (fun b a => appendAttr ip d b a) buf
  let buf := r.attrs.foldl (fun b a => appendAttr ip d b a) buf
  buf ++ [10]

/-- `Handle` in full: assemble the line, then write it to the sink under the
handler's mutex; the returned error is the sink's, unmodified. -/
def handle (ip : Nat → Bool) (cs : Nat → Nat → List Nat × Int)
    (d : DefaultHandler) (r : GoRecord) : List Nat × Option (List Nat) :=
  let line := handleLine ip cs d r
  (line, d.w line)

/-! ## Context attributes and the structured facade (source `src/log.go`) -/

/-- Modelled from the spec (§4.4): the context attribute store.  `WithCtx`
(not under src) appends key/value pairs to the (possibly empty) sequence on
the context, producing a new context; the store is the ordered inherited
chain, oldest first. -/
def withCtx (ctx : List GoAttr) (pairs : List GoAttr) : List GoAttr := ctx ++ pairs

/-- Modelled from the spec (§4.4): `mergeAttrs` (not under src) extracts the
context chain and emits it before the attributes passed directly to the log
call; no deduplication. -/
def mergeAttrs (ctx : List GoAttr) (attrs : List GoAttr) : List GoAttr := ctx ++ attrs

/-- `toSlogS` from `src/log.go` lines 253-257: the level, message and merged
attribute list handed to `slog.Logger.Log`. -/
def toSlogS (ctx : List GoAttr) (level : Int) (msg : List Nat) (attrs : List GoAttr) :
    Int × List Nat × List GoAttr :=
  (level, msg, mergeAttrs ctx attrs)

/-- The error-prepend step shared by `WarnS`/`ErrorS`/`CriticalS`
(`src/log.go` lines 199-234): a non-nil error prepends
`slog.String("err", err.Error())` before the caller's attributes. -/
def errAttrPrepend (err : Option (List Nat)) (attrs : List GoAttr) : List GoAttr :=
  match err with
  | some e => { key := goStr "err", value := GoValue.vstr e } :: attrs
  | none => attrs

/-- `WarnS` from `src/log.go` lines 199-207. -/
def warnS (ctx : List GoAttr) (msg : List Nat) (err : Option (List Nat))
    (attrs : List GoAttr) : Int × List Nat × List GoAttr :=
  toSlogS ctx LevelWarn msg (errAttrPrepend err attrs)

/-- `ErrorS` from `src/log.go` lines 213-221. -/
def errorS (ctx : List GoAttr) (msg : List Nat) (err : Option (List Nat))
    (attrs : List GoAttr) : Int × List Nat × List GoAttr :=
  toSlogS ctx LevelError msg (errAttrPrepend err attrs)

/-- `CriticalS` from `src/log.go` lines 227-234. -/
def criticalS (ctx : List GoAttr) (msg : List Nat) (err : Option (List Nat))
    (attrs : List GoAttr) : Int × List Nat × List GoAttr :=
  toSlogS ctx LevelCritical msg (errAttrPrepend err attrs)

/-! ## Concrete instances used by the closed scenario theorems -/

/-- A concrete stand-in for `unicode.IsPrint` restricted to ASCII (exact on
every ASCII code point; the scenario strings are ASCII). -/
def ipAscii : Nat → Bool := fun b => decide (32 ≤ b ∧ b < 127)

/-- A concrete call-site resolver whose result is never used (the scenario
handlers leave the caller flags unset). -/
def csNone : Nat → Nat → List Nat × Int := fun _ _ => ([], 0)

/-- A sink that always succeeds. -/
def wOk : List Nat → Option (List Nat) := fun _ => none

/-- The scenario handler: `NewDefaultHandler(w, WithNoTimestamp())`. -/
def c1Handler : DefaultHandler := newDefaultHandler wOk [withNoTimestamp]

/-- An attribute-less record at the given level with the given message. -/
def plainRecord (level : Int) (msg : List Nat) : GoRecord :=
  { time := none, level := level, message := msg, attrs := [] }

/-- The token one attribute contributes to a line (its rendering into an
empty buffer). -/
def attrToken (ip : Nat → Bool) (d : DefaultHandler) (a : GoAttr) : List Nat :=
  appendAttr ip d [] a

/-- Number of attributes in a list carrying the given key. -/
def countKey (l : List GoAttr) (k : List Nat) : Nat :=
  l.countP (fun a => a.key = k)

end Btclog

/-- C8: the string rendering of each named threshold round-trips through
`LevelFromString` to the same level with ok = true. -/
theorem c8_named_level_roundtrip :
    Btclog.levelFromString (Btclog.levelString Btclog.LevelTrace)
      = (Btclog.LevelTrace, true)
    ∧ Btclog.levelFromString (Btclog.levelString Btclog.LevelDebug)
      = (Btclog.LevelDebug, true)
    ∧ Btclog.levelFromString (Btclog.levelString Btclog.LevelInfo)
      = (Btclog.LevelInfo, true)
    ∧ Btclog.levelFromString (Btclog.levelString Btclog.LevelWarn)
      = (Btclog.LevelWarn, true)
    ∧ Btclog.levelFromString (Btclog.levelString Btclog.LevelError)
      = (Btclog.LevelError, true)
    ∧ Btclog.levelFromString (Btclog.levelString Btclog.LevelCritical)
      = (Btclog.LevelCritical, true)
    ∧ Btclog.levelFromString (Btclog.levelString Btclog.LevelOff)
      = (Btclog.LevelOff, true) := by
  decide

/-- C1: with timestamps disabled, no tag and threshold Info, handling an
Info-level record with message "Test Basic Log" writes exactly
"[INF]: Test Basic Log\n"; the handler derived with tag "SUBS" writes
"[INF] SUBS: hello\n" for message "hello". -/
theorem c1_basic_and_subsystem_lines :
    Btclog.enabled Btclog.c1Handler Btclog.LevelInfo = true
    ∧ Btclog.handleLine Btclog.ipAscii Btclog.csNone Btclog.c1Handler
        (Btclog.plainRecord Btclog.LevelInfo (Btclog.goStr "Test Basic Log"))
        = Btclog.goStr "[INF]: Test Basic Log\n"
    ∧ Btclog.handleLine Btclog.ipAscii Btclog.csNone
        (Btclog.subSystem Btclog.c1Handler (Btclog.goStr "SUBS") 7)
        (Btclog.plainRecord Btclog.LevelInfo (Btclog.goStr "hello"))
        = Btclog.goStr "[INF] SUBS: hello\n" := by
  decide

/-- C4: `Enabled` is the inclusive filter `recordLevel >= threshold`, and it
is monotone: a handler at the higher of two thresholds rejects the lower one,
accepts everything at or above its own, and accepts a subset of what the
lower-threshold handler accepts. -/
theorem c4_enabled_inclusive_monotone :
    (∀ (d : Btclog.DefaultHandler) (l : Int),
      Btclog.enabled d l = true ↔ d.level ≤ l)
    ∧ (∀ d1 d2 : Btclog.DefaultHandler, d1.level < d2.level →
        (∀ l, Btclog.enabled d2 l = true → Btclog.enabled d1 l = true)
        ∧ Btclog.enabled d2 d1.level = false
        ∧ (∀ l, d2.level ≤ l → Btclog.enabled d2 l = true)) := by
  constructor
  · intro d l
    simp [Btclog.enabled]
  · intro d1 d2 h
    refine ⟨fun l hl => ?_, ?_, fun l hl => ?_⟩ <;>
      (simp_all [Btclog.enabled]; try omega)

theorem c4_enabled_inclusive_monotone_witness :
    Btclog.enabled (Btclog.setLevel Btclog.c1Handler 9)
        (Btclog.setLevel Btclog.c1Handler 4).level = false
    ∧ Btclog.enabled (Btclog.setLevel Btclog.c1Handler 9) 100 = true :=
  ⟨(c4_enabled_inclusive_monotone.2 (Btclog.setLevel Btclog.c1Handler 4)
      (Btclog.setLevel Btclog.c1Handler 9) (by decide)).2.1,
   (c4_enabled_inclusive_monotone.2 (Btclog.setLevel Btclog.c1Handler 4)
      (Btclog.setLevel Btclog.c1Handler 9) (by decide)).2.2 100 (by decide)⟩

/-- C9: a handler fresh out of `NewDefaultHandler` (any sink, any options)
has threshold `LevelInfo`: `Level()` returns Info, Debug- and Trace-level
records are not enabled, Info and above are enabled. -/
theorem c9_new_handler_threshold_info :
    ∀ (w : List Nat → Option (List Nat)) (options : List Btclog.HandlerOption),
      Btclog.handlerLevel (Btclog.newDefaultHandler w options) = Btclog.LevelInfo
      ∧ Btclog.enabled (Btclog.newDefaultHandler w options) Btclog.LevelDebug = false
      ∧ Btclog.enabled (Btclog.newDefaultHandler w options) Btclog.LevelTrace = false
      ∧ ∀ l : Int, Btclog.LevelInfo ≤ l →
          Btclog.enabled (Btclog.newDefaultHandler w options) l = true := by
  intro w options
  refine ⟨rfl, rfl, rfl, fun l hl => ?_⟩
  simp only [Btclog.enabled, Btclog.newDefaultHandler, decide_eq_true_eq]
  exact hl

theorem c9_new_handler_threshold_info_witness :
    Btclog.enabled (Btclog.newDefaultHandler Btclog.wOk [Btclog.withNoTimestamp]) 9 = true :=
  (c9_new_handler_threshold_info Btclog.wOk [Btclog.withNoTimestamp]).2.2.2 9 (by decide)

/-- C6: deriving a child handler is an independent copy — fresh buffer and
mutex ids distinct from the parent's (and from each other), bound fields
equal to the parent's fields concatenated with the extra attributes, the new
tag installed, and the parent's configuration, threshold and sink carried
over; `WithGroup` joins a non-empty existing tag with a `.` separator, and
`SubSystem`/`WithAttrs` are the corresponding `with` derivations. -/
theorem c6_derivation_independent_copy :
    ∀ (d : Btclog.DefaultHandler) (tag : List Nat) (cso : Bool)
      (attrs : List Btclog.GoAttr) (fresh : Nat),
      d.bufId < fresh → d.muId < fresh →
      ((Btclog.withDerive d tag cso attrs fresh).bufId ≠ d.bufId
        ∧ (Btclog.withDerive d tag cso attrs fresh).muId ≠ d.muId
        ∧ (Btclog.withDerive d tag cso attrs fresh).bufId
            ≠ (Btclog.withDerive d tag cso attrs fresh).muId
        ∧ (Btclog.withDerive d tag cso attrs fresh).fields = d.fields ++ attrs
        ∧ (Btclog.withDerive d tag cso attrs fresh).tag = tag
        ∧ (Btclog.withDerive d tag cso attrs fresh).callstackOffset = cso
        ∧ (Btclog.withDerive d tag cso attrs fresh).opts = d.opts
        ∧ (Btclog.withDerive d tag cso attrs fresh).level = d.level
        ∧ (Btclog.withDerive d tag cso attrs fresh).w = d.w)
      ∧ (∀ name, Btclog.withGroup d name fresh
          = Btclog.withDerive d (if d.tag = [] then name else d.tag ++ [46] ++ name)
              true [] fresh)
      ∧ Btclog.subSystem d tag fresh = Btclog.withDerive d tag false [] fresh
      ∧ Btclog.withAttrs d attrs fresh = Btclog.withDerive d d.tag true attrs fresh := by
  intro d tag cso attrs fresh h1 h2
  refine ⟨⟨?_, ?_, ?_, rfl, rfl, rfl, rfl, rfl, rfl⟩, fun name => rfl, rfl, rfl⟩ <;>
    simp [Btclog.withDerive] <;> omega

theorem c6_derivation_independent_copy_witness :
    (Btclog.withDerive Btclog.c1Handler (Btclog.goStr "SUBS") false [] 5).fields
        = Btclog.c1Handler.fields ++ []
    ∧ (Btclog.withDerive Btclog.c1Handler (Btclog.goStr "SUBS") false [] 5).bufId
        ≠ Btclog.c1Handler.bufId :=
  ⟨(c6_derivation_independent_copy Btclog.c1Handler (Btclog.goStr "SUBS") false [] 5
      (by decide) (by decide)).1.2.2.2.1,
   (c6_derivation_independent_copy Btclog.c1Handler (Btclog.goStr "SUBS") false [] 5
      (by decide) (by decide)).1.1⟩

/-- C10: `WarnS`/`ErrorS`/`CriticalS` prepend an attribute ("err", message of
the error) before all caller-supplied attributes of the call when the error is
non-nil, and pass the attributes through unchanged when it is nil. -/
theorem c10_err_attr_injection :
    ∀ (ctx : List Btclog.GoAttr) (msg : List Nat) (err : Option (List Nat))
      (attrs : List Btclog.GoAttr),
      (∀ e, err = some e →
        Btclog.warnS ctx msg err attrs
          = (Btclog.LevelWarn, msg, Btclog.mergeAttrs ctx
              ({ key := Btclog.goStr "err", value := Btclog.GoValue.vstr e } :: attrs))
        ∧ Btclog.errorS ctx msg err attrs
          = (Btclog.LevelError, msg, Btclog.mergeAttrs ctx
              ({ key := Btclog.goStr "err", value := Btclog.GoValue.vstr e } :: attrs))
        ∧ Btclog.criticalS ctx msg err attrs
          = (Btclog.LevelCritical, msg, Btclog.mergeAttrs ctx
              ({ key := Btclog.goStr "err", value := Btclog.GoValue.vstr e } :: attrs)))
      ∧ (err = none →
        Btclog.warnS ctx msg err attrs = (Btclog.LevelWarn, msg, Btclog.mergeAttrs ctx attrs)
        ∧ Btclog.errorS ctx msg err attrs
          = (Btclog.LevelError, msg, Btclog.mergeAttrs ctx attrs)
        ∧ Btclog.criticalS ctx msg err attrs
          = (Btclog.LevelCritical, msg, Btclog.mergeAttrs ctx attrs)) := by
  intro ctx msg err attrs
  constructor
  · rintro e rfl
    exact ⟨rfl, rfl, rfl⟩
  · rintro rfl
    exact ⟨rfl, rfl, rfl⟩

theorem c10_err_attr_injection_witness :
    Btclog.warnS [] (Btclog.goStr "m") (some (Btclog.goStr "oh no"))
        [{ key := Btclog.goStr "key", value := Btclog.GoValue.vstr (Btclog.goStr "value") }]
      = (Btclog.LevelWarn, Btclog.goStr "m", Btclog.mergeAttrs []
          ({ key := Btclog.goStr "err", value := Btclog.GoValue.vstr (Btclog.goStr "oh no") }
            :: [{ key := Btclog.goStr "key",
                  value := Btclog.GoValue.vstr (Btclog.goStr "value") }])) :=
  ((c10_err_attr_injection [] (Btclog.goStr "m") (some (Btclog.goStr "oh no"))
      [{ key := Btclog.goStr "key", value := Btclog.GoValue.vstr (Btclog.goStr "value") }]).1
    (Btclog.goStr "oh no") rfl).1

/-- C3: a panic raised while stringifying an attribute value is caught at the
value-encoder boundary and replaced by the literal "!PANIC: <description>"
token rendered in place of the value; `Handle` is total and its only error is
the sink's write error, so an encoding fault produces no error; concretely, a
panicking value yields the line containing the `!PANIC:` marker. -/
theorem c3_panic_contained_at_encoder :
    (∀ (ip : Nat → Bool) (d : Btclog.DefaultHandler) (buf k pd : List Nat),
      Btclog.appendAttr ip d buf
          { key := k, value := Btclog.GoValue.vany (Except.error pd) }
        = Btclog.appendString ip (Btclog.appendKey ip d buf k)
            (Btclog.goStr "!PANIC: " ++ pd))
    ∧ (∀ (ip : Nat → Bool) (cs : Nat → Nat → List Nat × Int)
        (d : Btclog.DefaultHandler) (r : Btclog.GoRecord),
        Btclog.handle ip cs d r
          = (Btclog.handleLine ip cs d r, d.w (Btclog.handleLine ip cs d r)))
    ∧ Btclog.handleLine Btclog.ipAscii Btclog.csNone Btclog.c1Handler
        { time := none, level := Btclog.LevelInfo, message := Btclog.goStr "oops",
          attrs := [{ key := Btclog.goStr "key",
                      value := Btclog.GoValue.vany (Except.error (Btclog.goStr "boom")) }] }
        = Btclog.goStr "[INF]: oops key=\"!PANIC: boom\"\n" := by
  refine ⟨?_, fun ip cs d r => rfl, by decide⟩
  intro ip d buf k pd
  simp [Btclog.appendAttr, Btclog.appendValue, Btclog.appendTextValue]

/-- C2 counterexample: the claim's characterization asserts that every string
containing a backslash needs quoting, but the source deliberately skips the
backslash in its ASCII test: the one-byte string containing only a backslash
is not quoted, while the claim's predicate triggers on it. -/
theorem c2_backslash_counterexample :
    92 ∈ [92]
    ∧ Btclog.needsQuoting Btclog.ipAscii [92] = false
    ∧ Btclog.specNeedsQuoting Btclog.claimAsciiTrigger Btclog.ipAscii [92] = true := by
  decide

theorem ascii_trigger_iff :
    ∀ b : Nat, b < 128 →
      ((b ≠ 92 ∧ (b = 32 ∨ b = 61 ∨ Btclog.safeSet b = false))
        ↔ Btclog.amendedAsciiTrigger b = true) := by
  decide

theorem nqLoopF_eq_toksF_any (ip : Nat → Bool) :
    ∀ (f : Nat) (s : List Nat), s.length ≤ f →
      Btclog.nqLoopF ip f s
        = (Btclog.toksF f s).any (Btclog.specTokTrigger Btclog.amendedAsciiTrigger ip) := by
  intro f
  induction f with
  | zero =>
    intro s hs
    rfl
  | succ f ih =>
    intro s hs
    cases s with
    | nil => rfl
    | cons b rest =>
      rw [Btclog.nqLoopF, Btclog.toksF]
      by_cases hb : b < 128
      · simp only [if_pos hb]
        by_cases ht : b ≠ 92 ∧ (b = 32 ∨ b = 61 ∨ Btclog.safeSet b = false)
        · have h2 : Btclog.amendedAsciiTrigger b = true := (ascii_trigger_iff b hb).1 ht
          simp [ht, h2, Btclog.specTokTrigger]
        · have h2 : Btclog.amendedAsciiTrigger b = false := by
            cases h : Btclog.amendedAsciiTrigger b with
            | false => rfl
            | true => exact absurd ((ascii_trigger_iff b hb).2 h) ht
          simp only [if_neg ht, List.any_cons, Btclog.specTokTrigger, h2,
            Bool.false_or]
          exact ih rest (by simp at hs; omega)
      · simp only [if_neg hb]
        cases hd : Btclog.utf8DecodeMB b rest with
        | none => simp [Btclog.specTokTrigger]
        | some rn =>
          obtain ⟨r, n⟩ := rn
          by_cases hn : Btclog.nqRune ip r = true
          · simp [hn, Btclog.specTokTrigger]
          · have hlen : (rest.drop (n - 1)).length ≤ f := by
              simp only [List.length_cons] at hs
              simp only [List.length_drop]
              omega
            simp only [hn, Bool.false_eq_true, if_false, List.any_cons,
              Btclog.specTokTrigger, Bool.false_or]
            rw [ih (rest.drop (n - 1)) hlen]

/-- C2 (amended): for every string, the source `needsQuoting` coincides with
the spec's characterization amended to drop the backslash trigger — true
exactly when the string is empty, contains an ASCII byte below 0x20, a space,
an `=`, or a double quote, or contains a multi-byte sequence decoding to an
invalid, space, or non-printable code point. -/
theorem c2_needs_quoting_characterization :
    ∀ (ip : Nat → Bool) (s : List Nat),
      Btclog.needsQuoting ip s
        = Btclog.specNeedsQuoting Btclog.amendedAsciiTrigger ip s := by
  intro ip s
  cases s with
  | nil => rfl
  | cons b rest =>
    simp only [Btclog.needsQuoting, Btclog.specNeedsQuoting, Btclog.utf8Toks,
      List.isEmpty_cons, Bool.false_eq_true, if_false, Bool.false_or]
    exact nqLoopF_eq_toksF_any ip (b :: rest).length (b :: rest) le_rfl

theorem hexVal_lhex : ∀ d : Nat, d < 16 → Btclog.hexVal (Btclog.lhex d) = some d := by
  decide

theorem hex2Parse_digits (b : Nat) (t : List Nat) (hb : b < 256) :
    Btclog.hex2Parse (Btclog.lhex (b / 16) :: Btclog.lhex (b % 16) :: t) = some (b, t) := by
  rw [Btclog.hex2Parse, hexVal_lhex (b / 16) (by omega), hexVal_lhex (b % 16) (by omega)]
  simp only [Option.some.injEq, Prod.mk.injEq]
  exact ⟨by omega, trivial⟩

theorem hex4Parse_digits (v : Nat) (t : List Nat) :
    Btclog.hex4Parse (Btclog.hex4 v ++ t) = some (v % 0x10000, t) := by
  simp only [Btclog.hex4, List.cons_append, List.nil_append]
  rw [Btclog.hex4Parse, hexVal_lhex (v / 0x1000 % 16) (by omega),
    hexVal_lhex (v / 0x100 % 16) (by omega), hexVal_lhex (v / 16 % 16) (by omega),
    hexVal_lhex (v % 16) (by omega)]
  simp only [Option.some.injEq, Prod.mk.injEq]
  exact ⟨by omega, trivial⟩

theorem hex8Parse_digits (v : Nat) (t : List Nat) (hv : v < 0x100000000) :
    Btclog.hex8Parse (Btclog.hex8 v ++ t) = some (v, t) := by
  simp only [Btclog.hex8, List.append_assoc]
  rw [Btclog.hex8Parse]
  simp only [hex4Parse_digits]
  simp only [Option.some.injEq, Prod.mk.injEq]
  exact ⟨by omega, trivial⟩

theorem isCont_iff {b : Nat} : Btclog.isCont b = true ↔ 0x80 ≤ b ∧ b ≤ 0xBF := by
  simp [Btclog.isCont]

theorem okB1_iff {b0 b1 : Nat} :
    Btclog.okB1 b0 b1 = true ↔ Btclog.b1Lo b0 ≤ b1 ∧ b1 ≤ Btclog.b1Hi b0 := by
  simp [Btclog.okB1]

theorem encodeRune_two {b b1 : Nat} (hb : 0xC2 ≤ b) (hb2 : b < 0xE0)
    (hc : 0x80 ≤ b1) (hc2 : b1 ≤ 0xBF) :
    Btclog.utf8EncodeRune (Btclog.rune2 b b1) = [b, b1]
    ∧ 0x80 ≤ Btclog.rune2 b b1 ∧ Btclog.rune2 b b1 < 0x800 := by
  have h1 : 0x80 ≤ Btclog.rune2 b b1 := by simp only [Btclog.rune2]; omega
  have h2 : Btclog.rune2 b b1 < 0x800 := by simp only [Btclog.rune2]; omega
  refine ⟨?_, h1, h2⟩
  simp only [Btclog.utf8EncodeRune]
  rw [if_neg (by omega), if_pos h2]
  simp only [List.cons.injEq, and_true]
  constructor <;> (simp only [Btclog.rune2]; omega)

theorem encodeRune_three {b b1 b2 : Nat} (hb : 0xE0 ≤ b) (hb2 : b < 0xF0)
    (hc1 : Btclog.b1Lo b ≤ b1) (hc2 : b1 ≤ Btclog.b1Hi b)
    (hd : 0x80 ≤ b2) (hd2 : b2 ≤ 0xBF) :
    Btclog.utf8EncodeRune (Btclog.rune3 b b1 b2) = [b, b1, b2]
    ∧ 0x800 ≤ Btclog.rune3 b b1 b2 ∧ Btclog.rune3 b b1 b2 < 0x10000
    ∧ ¬(0xD800 ≤ Btclog.rune3 b b1 b2 ∧ Btclog.rune3 b b1 b2 ≤ 0xDFFF) := by
  have hbr : (0x80 ≤ b1 ∧ b1 ≤ 0xBF) ∧ (b = 0xE0 → 0xA0 ≤ b1) ∧ (b = 0xED → b1 ≤ 0x9F) := by
    by_cases hE : b = 0xE0
    · subst hE
      simp [Btclog.b1Lo, Btclog.b1Hi] at hc1 hc2
      exact ⟨⟨by omega, by omega⟩, fun h => by omega, fun h => by omega⟩
    · by_cases hD : b = 0xED
      · subst hD
        simp [Btclog.b1Lo, Btclog.b1Hi] at hc1 hc2
        exact ⟨⟨by omega, by omega⟩, fun h => by omega, fun h => by omega⟩
      · have hf0 : b ≠ 0xF0 := by omega
        have hf4 : b ≠ 0xF4 := by omega
        simp [Btclog.b1Lo, Btclog.b1Hi, hE, hD, hf0, hf4] at hc1 hc2
        exact ⟨⟨by omega, by omega⟩, fun h => by omega, fun h => by omega⟩
  obtain ⟨⟨hb1a, hb1b⟩, hE0, hED⟩ := hbr
  have h1 : 0x800 ≤ Btclog.rune3 b b1 b2 := by
    simp only [Btclog.rune3]
    rcases eq_or_ne b 0xE0 with hE | hE
    · have := hE0 hE
      omega
    · omega
  have h2 : Btclog.rune3 b b1 b2 < 0x10000 := by
    simp only [Btclog.rune3]; omega
  have h3 : ¬(0xD800 ≤ Btclog.rune3 b b1 b2 ∧ Btclog.rune3 b b1 b2 ≤ 0xDFFF) := by
    simp only [Btclog.rune3]
    rcases eq_or_ne b 0xED with hD | hD
    · have := hED hD
      omega
    · omega
  refine ⟨?_, h1, h2, h3⟩
  simp only [Btclog.utf8EncodeRune]
  rw [if_neg (by omega), if_neg (by omega), if_pos h2, if_neg h3]
  simp only [List.cons.injEq, and_true]
  refine ⟨?_, ?_, ?_⟩ <;> (simp only [Btclog.rune3]; omega)

theorem encodeRune_four {b b1 b2 b3 : Nat} (hb : 0xF0 ≤ b) (hb2 : b ≤ 0xF4)
    (hc1 : Btclog.b1Lo b ≤ b1) (hc2 : b1 ≤ Btclog.b1Hi b)
    (hd : 0x80 ≤ b2) (hd2 : b2 ≤ 0xBF) (he : 0x80 ≤ b3) (he2 : b3 ≤ 0xBF) :
    Btclog.utf8EncodeRune (Btclog.rune4 b b1 b2 b3) = [b, b1, b2, b3]
    ∧ 0x10000 ≤ Btclog.rune4 b b1 b2 b3 ∧ Btclog.rune4 b b1 b2 b3 ≤ 0x10FFFF := by
  have hbr : (0x80 ≤ b1 ∧ b1 ≤ 0xBF) ∧ (b = 0xF0 → 0x90 ≤ b1) ∧ (b = 0xF4 → b1 ≤ 0x8F) := by
    by_cases hF : b = 0xF0
    · subst hF
      simp [Btclog.b1Lo, Btclog.b1Hi] at hc1 hc2
      exact ⟨⟨by omega, by omega⟩, fun h => by omega, fun h => by omega⟩
    · by_cases hG : b = 0xF4
      · subst hG
        simp [Btclog.b1Lo, Btclog.b1Hi] at hc1 hc2
        exact ⟨⟨by omega, by omega⟩, fun h => by omega, fun h => by omega⟩
      · have he0 : b ≠ 0xE0 := by omega
        have hed : b ≠ 0xED := by omega
        simp [Btclog.b1Lo, Btclog.b1Hi, hF, hG, he0, hed] at hc1 hc2
        exact ⟨⟨by omega, by omega⟩, fun h => by omega, fun h => by omega⟩
  obtain ⟨⟨hb1a, hb1b⟩, hF0, hF4⟩ := hbr
  have h1 : 0x10000 ≤ Btclog.rune4 b b1 b2 b3 := by
    simp only [Btclog.rune4]
    rcases eq_or_ne b 0xF0 with hF | hF
    · have := hF0 hF
      omega
    · omega
  have h2 : Btclog.rune4 b b1 b2 b3 ≤ 0x10FFFF := by
    simp only [Btclog.rune4]
    rcases eq_or_ne b 0xF4 with hF | hF
    · have := hF4 hF
      omega
    · omega
  refine ⟨?_, h1, h2⟩
  simp only [Btclog.utf8EncodeRune]
  rw [if_neg (by omega), if_neg (by omega), if_neg (by omega), if_pos h2]
  simp only [List.cons.injEq, and_true]
  refine ⟨?_, ?_, ?_, ?_⟩ <;> (simp only [Btclog.rune4]; omega)

theorem utf8DecodeMB_spec {b : Nat} {rest : List Nat} {r n : Nat}
    (h : Btclog.utf8DecodeMB b rest = some (r, n)) :
    Btclog.utf8EncodeRune r = b :: rest.take (n - 1)
    ∧ 0x80 ≤ r ∧ Btclog.validRune r = true ∧ 2 ≤ n ∧ n - 1 ≤ rest.length := by
  simp only [Btclog.utf8DecodeMB] at h
  have hno : ¬(b < 0xC2 ∨ 0xF4 < b) := by
    intro hcon
    rw [if_pos hcon] at h
    cases h
  rw [if_neg hno] at h
  have hbl : 0xC2 ≤ b := by omega
  have hbh : b ≤ 0xF4 := by omega
  by_cases h2 : b < 0xE0
  · rw [if_pos h2] at h
    cases rest with
    | nil => rw [Btclog.decode2] at h; cases h
    | cons b1 tl =>
      rw [Btclog.decode2] at h
      by_cases hc : Btclog.isCont b1 = true
      · rw [if_pos hc] at h
        simp only [Option.some.injEq, Prod.mk.injEq] at h
        obtain ⟨hr, hn⟩ := h
        subst hr
        subst hn
        obtain ⟨hcc1, hcc2⟩ := isCont_iff.mp hc
        obtain ⟨henc, hlo, hhi⟩ := encodeRune_two hbl h2 hcc1 hcc2
        refine ⟨?_, hlo, ?_, by omega, by simp⟩
        · simpa using henc
        · simp only [Btclog.validRune, decide_eq_true_eq]
          omega
      · rw [if_neg hc] at h
        cases h
  · rw [if_neg h2] at h
    by_cases h3 : b < 0xF0
    · rw [if_pos h3] at h
      match rest, h with
      | b1 :: b2 :: tl, h =>
        rw [Btclog.decode3] at h
        by_cases hc : Btclog.okB1 b b1 = true ∧ Btclog.isCont b2 = true
        · rw [if_pos hc] at h
          simp only [Option.some.injEq, Prod.mk.injEq] at h
          obtain ⟨hr, hn⟩ := h
          subst hr
          subst hn
          obtain ⟨hc1, hc2⟩ := hc
          obtain ⟨ho1, ho2⟩ := okB1_iff.mp hc1
          obtain ⟨hd1, hd2⟩ := isCont_iff.mp hc2
          obtain ⟨henc, hlo, hhi, hsur⟩ :=
            encodeRune_three (by omega) h3 ho1 ho2 hd1 hd2
          refine ⟨?_, by omega, ?_, by omega, by simp⟩
          · simpa using henc
          · simp only [Btclog.validRune, decide_eq_true_eq]
            omega
        · rw [if_neg hc] at h
          cases h
      | [], h => simp [Btclog.decode3] at h
      | [b1], h => simp [Btclog.decode3] at h
    · rw [if_neg h3] at h
      match rest, h with
      | b1 :: b2 :: b3 :: tl, h =>
        rw [Btclog.decode4] at h
        by_cases hc : Btclog.okB1 b b1 = true ∧ Btclog.isCont b2 = true
            ∧ Btclog.isCont b3 = true
        · rw [if_pos hc] at h
          simp only [Option.some.injEq, Prod.mk.injEq] at h
          obtain ⟨hr, hn⟩ := h
          subst hr
          subst hn
          obtain ⟨hc1, hc2, hc3⟩ := hc
          obtain ⟨ho1, ho2⟩ := okB1_iff.mp hc1
          obtain ⟨hd1, hd2⟩ := isCont_iff.mp hc2
          obtain ⟨he1, he2⟩ := isCont_iff.mp hc3
          obtain ⟨henc, hlo, hhi⟩ :=
            encodeRune_four (by omega) hbh ho1 ho2 hd1 hd2 he1 he2
          refine ⟨?_, by omega, ?_, by omega, by simp⟩
          · simpa using henc
          · simp only [Btclog.validRune, decide_eq_true_eq]
            omega
        · rw [if_neg hc] at h
          cases h
      | [], h => simp [Btclog.decode4] at h
      | [b1], h => simp [Btclog.decode4] at h
      | [b1, b2], h => simp [Btclog.decode4] at h

theorem unqLoopF_raw_byte (f : Nat) {c : Nat} (h34 : c ≠ 34) (h10 : c ≠ 10)
    (h80 : c < 0x80) (h92 : c ≠ 92) (t : List Nat) :
    Btclog.unqLoopF (f + 1) (c :: t) = (Btclog.unqLoopF f t).map (fun o => c :: o) := by
  cases t with
  | nil =>
    rw [Btclog.unqLoopF.eq_3, if_neg h34, if_neg h10, if_neg (by omega), if_pos h92]
  | cons e r2 =>
    rw [Btclog.unqLoopF.eq_4, if_neg h34, if_neg h10, if_neg (by omega), if_pos h92]

theorem unqLoopF_esc_step (f : Nat) {e : Nat} {rest2 em rem : List Nat}
    (h : Btclog.unqEsc e rest2 = some (em, rem)) :
    Btclog.unqLoopF (f + 1) (92 :: e :: rest2)
      = (Btclog.unqLoopF f rem).map (fun o => em ++ o) := by
  rw [Btclog.unqLoopF.eq_4, if_neg (by omega), if_neg (by omega), if_neg (by omega),
    if_neg (by simp), h]

theorem validRune_iff {r : Nat} :
    Btclog.validRune r = true ↔ r ≤ 0x10FFFF ∧ ¬(0xD800 ≤ r ∧ r ≤ 0xDFFF) := by
  simp only [Btclog.validRune, decide_eq_true_eq]

theorem unqLoopF_encodeRune (f : Nat) {r : Nat} (h1 : 0x80 ≤ r)
    (h2 : Btclog.validRune r = true) (t : List Nat) :
    Btclog.unqLoopF (f + 1) (Btclog.utf8EncodeRune r ++ t)
      = (Btclog.unqLoopF f t).map (fun o => Btclog.utf8EncodeRune r ++ o) := by
  obtain ⟨hvu, hvs⟩ := validRune_iff.mp h2
  by_cases hr2 : r < 0x800
  · have henc : Btclog.utf8EncodeRune r = [0xC0 + r / 0x40, 0x80 + r % 0x40] := by
      simp only [Btclog.utf8EncodeRune]
      rw [if_neg (by omega), if_pos hr2]
    have hdec : Btclog.utf8DecodeMB (0xC0 + r / 0x40) ((0x80 + r % 0x40) :: t)
        = some (r, 2) := by
      simp only [Btclog.utf8DecodeMB]
      rw [if_neg (by omega), if_pos (by omega), Btclog.decode2,
        if_pos (isCont_iff.mpr ⟨by omega, by omega⟩)]
      simp only [Option.some.injEq, Prod.mk.injEq, Btclog.rune2]
      exact ⟨by omega, trivial⟩
    rw [henc]
    simp only [List.cons_append, List.nil_append]
    obtain ⟨m34, m10, m80⟩ :
        0xC0 + r / 0x40 ≠ 34 ∧ 0xC0 + r / 0x40 ≠ 10
          ∧ (0x80 : Nat) ≤ 0xC0 + r / 0x40 := by omega
    rw [Btclog.unqLoopF.eq_4, if_neg m34, if_neg m10, if_pos m80, hdec]
    simp [henc]
  · by_cases hr3 : r < 0x10000
    · have henc : Btclog.utf8EncodeRune r
          = [0xE0 + r / 0x1000, 0x80 + r / 0x40 % 0x40, 0x80 + r % 0x40] := by
        simp only [Btclog.utf8EncodeRune]
        rw [if_neg (by omega), if_neg (by omega), if_pos hr3, if_neg hvs]
      have hok : Btclog.okB1 (0xE0 + r / 0x1000) (0x80 + r / 0x40 % 0x40) = true := by
        rw [okB1_iff]
        constructor
        · simp only [Btclog.b1Lo]
          by_cases hE : 0xE0 + r / 0x1000 = 0xE0
          · rw [if_pos hE]
            omega
          · rw [if_neg hE, if_neg (by omega)]
            omega
        · simp only [Btclog.b1Hi]
          by_cases hD : 0xE0 + r / 0x1000 = 0xED
          · rw [if_pos hD]
            omega
          · rw [if_neg hD, if_neg (by omega)]
            omega
      have hdec : Btclog.utf8DecodeMB (0xE0 + r / 0x1000)
          ((0x80 + r / 0x40 % 0x40) :: (0x80 + r % 0x40) :: t) = some (r, 3) := by
        simp only [Btclog.utf8DecodeMB]
        have hcls : ¬(0xE0 + r / 0x1000 < 0xC2 ∨ 0xF4 < 0xE0 + r / 0x1000) := by omega
        rw [if_neg hcls, if_neg (by omega), if_pos (by omega), Btclog.decode3,
          if_pos ⟨hok, isCont_iff.mpr ⟨by omega, by omega⟩⟩]
        simp only [Option.some.injEq, Prod.mk.injEq, Btclog.rune3]
        exact ⟨by omega, trivial⟩
      rw [henc]
      simp only [List.cons_append, List.nil_append]
      obtain ⟨m34, m10, m80⟩ :
          0xE0 + r / 0x1000 ≠ 34 ∧ 0xE0 + r / 0x1000 ≠ 10
            ∧ (0x80 : Nat) ≤ 0xE0 + r / 0x1000 := by omega
      rw [Btclog.unqLoopF.eq_4, if_neg m34, if_neg m10, if_pos m80, hdec]
      simp [henc]
    · have henc : Btclog.utf8EncodeRune r
          = [0xF0 + r / 0x40000, 0x80 + r / 0x1000 % 0x40, 0x80 + r / 0x40 % 0x40,
              0x80 + r % 0x40] := by
        simp only [Btclog.utf8EncodeRune]
        rw [if_neg (by omega), if_neg (by omega), if_neg (by omega), if_pos (by omega)]
      have hok : Btclog.okB1 (0xF0 + r / 0x40000) (0x80 + r / 0x1000 % 0x40) = true := by
        rw [okB1_iff]
        constructor
        · simp only [Btclog.b1Lo]
          rw [if_neg (by omega)]
          by_cases hF : 0xF0 + r / 0x40000 = 0xF0
          · rw [if_pos hF]
            omega
          · rw [if_neg hF]
            omega
        · simp only [Btclog.b1Hi]
          rw [if_neg (by omega)]
          by_cases hG : 0xF0 + r / 0x40000 = 0xF4
          · rw [if_pos hG]
            omega
          · rw [if_neg hG]
            omega
      have hdec : Btclog.utf8DecodeMB (0xF0 + r / 0x40000)
          ((0x80 + r / 0x1000 % 0x40) :: (0x80 + r / 0x40 % 0x40)
            :: (0x80 + r % 0x40) :: t) = some (r, 4) := by
        simp only [Btclog.utf8DecodeMB]
        have hcls : ¬(0xF0 + r / 0x40000 < 0xC2 ∨ 0xF4 < 0xF0 + r / 0x40000) := by omega
        rw [if_neg hcls, if_neg (by omega), if_neg (by omega), Btclog.decode4,
          if_pos ⟨hok, isCont_iff.mpr ⟨by omega, by omega⟩,
            isCont_iff.mpr ⟨by omega, by omega⟩⟩]
        simp only [Option.some.injEq, Prod.mk.injEq, Btclog.rune4]
        exact ⟨by omega, trivial⟩
      rw [henc]
      simp only [List.cons_append, List.nil_append]
      obtain ⟨m34, m10, m80⟩ :
          0xF0 + r / 0x40000 ≠ 34 ∧ 0xF0 + r / 0x40000 ≠ 10
            ∧ (0x80 : Nat) ≤ 0xF0 + r / 0x40000 := by omega
      rw [Btclog.unqLoopF.eq_4, if_neg m34, if_neg m10, if_pos m80, hdec]
      simp [henc]

theorem unq_escx (f : Nat) {b : Nat} (hb : b < 256) (t : List Nat) :
    Btclog.unqLoopF (f + 1) (Btclog.escx b ++ t)
      = (Btclog.unqLoopF f t).map (fun o => b :: o) := by
  have hx : Btclog.unqEsc 120 (Btclog.lhex (b / 16) :: Btclog.lhex (b % 16) :: t)
      = some ([b], t) := by
    simp [Btclog.unqEsc, hex2Parse_digits b t hb]
  simp only [Btclog.escx, List.cons_append, List.nil_append]
  rw [unqLoopF_esc_step f hx]
  rfl

theorem unq_escRune_ascii (ip : Nat → Bool) (hip : ip 10 = false) (f : Nat) {b : Nat}
    (hb : b < 0x80) (t : List Nat) :
    Btclog.unqLoopF (f + 1) (Btclog.escRune ip b ++ t)
      = (Btclog.unqLoopF f t).map (fun o => b :: o) := by
  have hstep : ∀ code val : Nat, Btclog.unqEsc code t = some ([val], t) →
      Btclog.unqLoopF (f + 1) ([92, code] ++ t)
        = (Btclog.unqLoopF f t).map (fun o => val :: o) := by
    intro code val h
    simp only [List.cons_append, List.nil_append]
    rw [unqLoopF_esc_step f h]
    rfl
  simp only [Btclog.escRune]
  by_cases h1 : b = 34 ∨ b = 92
  · rw [if_pos h1]
    rcases h1 with h | h <;> subst h
    · exact hstep 34 34 rfl
    · exact hstep 92 92 rfl
  · rw [if_neg h1]
    by_cases hp : ip b = true
    · rw [if_pos hp]
      have he : Btclog.utf8EncodeRune b = [b] := by
        simp only [Btclog.utf8EncodeRune]
        rw [if_pos hb]
      have hb10 : b ≠ 10 := by
        intro hcon
        subst hcon
        rw [hip] at hp
        cases hp
      rw [he]
      simp only [List.cons_append, List.nil_append]
      exact unqLoopF_raw_byte f (by omega) hb10 hb (by omega) t
    · rw [if_neg hp]
      by_cases h7 : b = 7
      · rw [if_pos h7]
        subst h7
        exact hstep 97 7 rfl
      · rw [if_neg h7]
        by_cases h8 : b = 8
        · rw [if_pos h8]
          subst h8
          exact hstep 98 8 rfl
        · rw [if_neg h8]
          by_cases h12 : b = 12
          · rw [if_pos h12]
            subst h12
            exact hstep 102 12 rfl
          · rw [if_neg h12]
            by_cases h10 : b = 10
            · rw [if_pos h10]
              subst h10
              exact hstep 110 10 rfl
            · rw [if_neg h10]
              by_cases h13 : b = 13
              · rw [if_pos h13]
                subst h13
                exact hstep 114 13 rfl
              · rw [if_neg h13]
                by_cases h9 : b = 9
                · rw [if_pos h9]
                  subst h9
                  exact hstep 116 9 rfl
                · rw [if_neg h9]
                  by_cases h11 : b = 11
                  · rw [if_pos h11]
                    subst h11
                    exact hstep 118 11 rfl
                  · rw [if_neg h11]
                    by_cases hlo : b < 32 ∨ b = 127
                    · rw [if_pos hlo]
                      exact unq_escx f (by omega) t
                    · rw [if_neg hlo]
                      have hval : Btclog.validRune b = true := by
                        rw [validRune_iff]
                        omega
                      rw [if_neg (fun hcon => hcon hval), if_pos (by omega)]
                      have hu : Btclog.unqEsc 117 (Btclog.hex4 b ++ t) = some ([b], t) := by
                        simp [Btclog.unqEsc, hex4Parse_digits, Nat.mod_eq_of_lt
                          (by omega : b < 0x10000), hval, hb]
                      simp only [List.append_assoc, List.cons_append, List.nil_append]
                      rw [unqLoopF_esc_step f hu]
                      rfl

theorem unq_escRune_high (ip : Nat → Bool) (f : Nat) {r : Nat} (h1 : 0x80 ≤ r)
    (h2 : Btclog.validRune r = true) (t : List Nat) :
    Btclog.unqLoopF (f + 1) (Btclog.escRune ip r ++ t)
      = (Btclog.unqLoopF f t).map (fun o => Btclog.utf8EncodeRune r ++ o) := by
  obtain ⟨hvu, hvs⟩ := validRune_iff.mp h2
  simp only [Btclog.escRune]
  rw [if_neg (by omega)]
  by_cases hp : ip r = true
  · rw [if_pos hp]
    exact unqLoopF_encodeRune f h1 h2 t
  · obtain ⟨n7, n8, n12, n10, n13, n9, n11, nlow⟩ :
        r ≠ 7 ∧ r ≠ 8 ∧ r ≠ 12 ∧ r ≠ 10 ∧ r ≠ 13 ∧ r ≠ 9 ∧ r ≠ 11
          ∧ ¬(r < 32 ∨ r = 127) := by omega
    rw [if_neg hp, if_neg n7, if_neg n8, if_neg n12, if_neg n10, if_neg n13,
      if_neg n9, if_neg n11, if_neg nlow, if_neg (fun hcon => hcon h2)]
    by_cases hr3 : r < 0x10000
    · rw [if_pos hr3]
      have hu : Btclog.unqEsc 117 (Btclog.hex4 r ++ t)
          = some (Btclog.utf8EncodeRune r, t) := by
        simp [Btclog.unqEsc, hex4Parse_digits, Nat.mod_eq_of_lt hr3, h2,
          Nat.not_lt.mpr h1]
      simp only [List.append_assoc, List.cons_append, List.nil_append]
      rw [unqLoopF_esc_step f hu]
    · rw [if_neg hr3]
      have hu : Btclog.unqEsc 85 (Btclog.hex8 r ++ t)
          = some (Btclog.utf8EncodeRune r, t) := by
        simp [Btclog.unqEsc, hex8Parse_digits r t (by omega), h2, Nat.not_lt.mpr h1]
      simp only [List.append_assoc, List.cons_append, List.nil_append]
      rw [unqLoopF_esc_step f hu]

theorem utf8EncodeRune_length_pos (r : Nat) : 1 ≤ (Btclog.utf8EncodeRune r).length := by
  simp only [Btclog.utf8EncodeRune]
  split_ifs <;> simp

theorem escRune_length_pos (ip : Nat → Bool) (r : Nat) :
    1 ≤ (Btclog.escRune ip r).length := by
  simp only [Btclog.escRune]
  by_cases h1 : r = 34 ∨ r = 92
  · rw [if_pos h1]; simp
  · rw [if_neg h1]
    by_cases h2 : ip r = true
    · rw [if_pos h2]
      exact utf8EncodeRune_length_pos r
    · rw [if_neg h2]
      by_cases h3 : r = 7
      · rw [if_pos h3]; simp
      · rw [if_neg h3]
        by_cases h4 : r = 8
        · rw [if_pos h4]; simp
        · rw [if_neg h4]
          by_cases h5 : r = 12
          · rw [if_pos h5]; simp
          · rw [if_neg h5]
            by_cases h6 : r = 10
            · rw [if_pos h6]; simp
            · rw [if_neg h6]
              by_cases h7 : r = 13
              · rw [if_pos h7]; simp
              · rw [if_neg h7]
                by_cases h8 : r = 9
                · rw [if_pos h8]; simp
                · rw [if_neg h8]
                  by_cases h9 : r = 11
                  · rw [if_pos h9]; simp
                  · rw [if_neg h9]
                    by_cases h10 : r < 32 ∨ r = 127
                    · rw [if_pos h10]; simp [Btclog.escx]
                    · rw [if_neg h10]
                      by_cases hv : Btclog.validRune r = true
                      · rw [if_neg (fun hc => hc hv)]
                        by_cases h11 : r < 0x10000
                        · rw [if_pos h11]; simp [Btclog.hex4]
                        · rw [if_neg h11]; simp [Btclog.hex8, Btclog.hex4]
                      · rw [if_pos hv]; simp [Btclog.hex4]

theorem unqLoopF_close (fu : Nat) : Btclog.unqLoopF (fu + 1) [34] = some [] := by
  rw [Btclog.unqLoopF.eq_3, if_pos rfl]
  simp

theorem unqLoopF_quoteBodyF (ip : Nat → Bool) (hip : ip 10 = false) :
    ∀ (fq : Nat) (s : List Nat), s.length ≤ fq → (∀ b, b ∈ s → b < 256) →
      ∀ fu : Nat, (Btclog.quoteBodyF ip fq s ++ [34]).length ≤ fu →
        Btclog.unqLoopF fu (Btclog.quoteBodyF ip fq s ++ [34]) = some s := by
  intro fq
  induction fq with
  | zero =>
    intro s hs _ fu hfu
    have hs0 : s = [] := by
      cases s with
      | nil => rfl
      | cons => simp at hs
    subst hs0
    rw [show Btclog.quoteBodyF ip 0 [] = [] from rfl] at hfu ⊢
    simp only [List.nil_append, List.length_cons, List.length_nil] at hfu
    obtain ⟨g, rfl⟩ : ∃ g, fu = g + 1 := ⟨fu - 1, by omega⟩
    exact unqLoopF_close g
  | succ fq ih =>
    intro s hs hbytes fu hfu
    cases s with
    | nil =>
      rw [show Btclog.quoteBodyF ip (fq + 1) [] = [] from rfl] at hfu ⊢
      simp only [List.nil_append, List.length_cons, List.length_nil] at hfu
      obtain ⟨g, rfl⟩ : ∃ g, fu = g + 1 := ⟨fu - 1, by omega⟩
      exact unqLoopF_close g
    | cons b rest =>
      rw [Btclog.quoteBodyF.eq_3] at hfu ⊢
      by_cases hb : b < 0x80
      · rw [if_pos hb] at hfu ⊢
        rw [List.append_assoc]
        have hel := escRune_length_pos ip b
        simp only [List.length_append, List.length_cons, List.length_nil] at hfu
        obtain ⟨g, rfl⟩ : ∃ g, fu = g + 1 := ⟨fu - 1, by omega⟩
        rw [unq_escRune_ascii ip hip g hb]
        rw [ih rest (by simp at hs; omega)
          (fun x hx => hbytes x (by simp [hx])) g
          (by simp only [List.length_append, List.length_cons, List.length_nil]; omega)]
        rfl
      · rw [if_neg hb] at hfu ⊢
        cases hd : Btclog.utf8DecodeMB b rest with
        | none =>
          rw [hd] at hfu
          simp only at hfu ⊢
          rw [List.append_assoc]
          have hb256 : b < 256 := hbytes b (by simp)
          simp only [List.length_append, List.length_cons, List.length_nil,
            Btclog.escx] at hfu
          obtain ⟨g, rfl⟩ : ∃ g, fu = g + 1 := ⟨fu - 1, by omega⟩
          rw [unq_escx g hb256]
          rw [ih rest (by simp at hs; omega)
            (fun x hx => hbytes x (by simp [hx])) g
            (by simp only [List.length_append, List.length_cons, List.length_nil]; omega)]
          rfl
        | some rn =>
          obtain ⟨r, n⟩ := rn
          obtain ⟨henc, hr80, hrval, hn2, hnlen⟩ := utf8DecodeMB_spec hd
          rw [hd] at hfu
          simp only at hfu ⊢
          rw [List.append_assoc]
          have hel := escRune_length_pos ip r
          simp only [List.length_append, List.length_cons, List.length_nil] at hfu
          obtain ⟨g, rfl⟩ : ∃ g, fu = g + 1 := ⟨fu - 1, by omega⟩
          rw [unq_escRune_high ip g hr80 hrval]
          rw [ih (rest.drop (n - 1))
            (by simp only [List.length_drop]; simp at hs; omega)
            (fun x hx => hbytes x (by simp [List.mem_of_mem_drop hx]))
            g
            (by simp only [List.length_append, List.length_cons, List.length_nil]; omega)]
          simp [henc]

/-- C7: for every byte string, when the quoting predicate holds the rendered
token is exactly the quoted backslash-escaped `strconv.Quote` form and the
matching `strconv.Unquote` recovers the original bytes byte-for-byte; when
the predicate is false the raw text is emitted unchanged.  (`ip` is
`unicode.IsPrint`, of which only `ip 10 = false` — a newline is not
printable — is needed; bytes of a Go string are below 256.) -/
theorem c7_quoted_token_roundtrip :
    ∀ (ip : Nat → Bool) (s buf : List Nat),
      ip 10 = false → (∀ b, b ∈ s → b < 256) →
      (Btclog.needsQuoting ip s = true →
        Btclog.appendString ip buf s = buf ++ Btclog.goQuote ip s)
      ∧ Btclog.goUnquote (Btclog.goQuote ip s) = some s
      ∧ (Btclog.needsQuoting ip s = false →
        Btclog.appendString ip buf s = buf ++ s) := by
  intro ip s buf hip hbytes
  refine ⟨fun h => ?_, ?_, fun h => ?_⟩
  · simp [Btclog.appendString, h]
  · show Btclog.goUnquote (34 :: (Btclog.quoteBody ip s ++ [34])) = some s
    have hgu : Btclog.goUnquote (34 :: (Btclog.quoteBody ip s ++ [34]))
        = Btclog.unqLoopF (Btclog.quoteBody ip s ++ [34]).length
            (Btclog.quoteBody ip s ++ [34]) := by
      simp [Btclog.goUnquote]
    rw [hgu]
    exact unqLoopF_quoteBodyF ip hip s.length s le_rfl hbytes _ le_rfl
  · simp [Btclog.appendString, h]

theorem c7_quoted_token_roundtrip_witness :
    Btclog.appendString Btclog.ipAscii [] (Btclog.goStr "a b")
        = [] ++ Btclog.goQuote Btclog.ipAscii (Btclog.goStr "a b")
    ∧ Btclog.goUnquote (Btclog.goQuote Btclog.ipAscii (Btclog.goStr "a b"))
        = some (Btclog.goStr "a b") :=
  ⟨(c7_quoted_token_roundtrip Btclog.ipAscii (Btclog.goStr "a b") []
      (by decide) (by decide)).1 (by decide),
   (c7_quoted_token_roundtrip Btclog.ipAscii (Btclog.goStr "a b") []
      (by decide) (by decide)).2.1⟩

theorem appendString_shift (ip : Nat → Bool) (buf s : List Nat) :
    Btclog.appendString ip buf s = buf ++ Btclog.appendString ip [] s := by
  by_cases h : Btclog.needsQuoting ip s = true <;> simp [Btclog.appendString, h]

theorem appendKey_shift (ip : Nat → Bool) (d : Btclog.DefaultHandler) (buf k : List Nat) :
    Btclog.appendKey ip d buf k = buf ++ Btclog.appendKey ip d [] k := by
  simp [Btclog.appendKey]

theorem appendValue_shift (ip : Nat → Bool) (buf : List Nat) (v : Btclog.GoValue) :
    Btclog.appendValue ip buf v = buf ++ Btclog.appendValue ip [] v := by
  cases v with
  | vnone => simpa [Btclog.appendValue, Btclog.appendTextValue] using appendString_shift ip buf _
  | vstr s => simpa [Btclog.appendValue, Btclog.appendTextValue] using appendString_shift ip buf s
  | vint n => simpa [Btclog.appendValue, Btclog.appendTextValue] using appendString_shift ip buf _
  | vany conv =>
    cases conv with
    | ok s => simpa [Btclog.appendValue, Btclog.appendTextValue] using appendString_shift ip buf s
    | error d => simpa [Btclog.appendValue, Btclog.appendTextValue] using appendString_shift ip buf _

theorem appendAttr_shift (ip : Nat → Bool) (d : Btclog.DefaultHandler) (buf : List Nat)
    (a : Btclog.GoAttr) :
    Btclog.appendAttr ip d buf a = buf ++ Btclog.attrToken ip d a := by
  by_cases h : a.key = [] ∧ a.value = Btclog.GoValue.vnone
  · simp [Btclog.appendAttr, Btclog.attrToken, h]
  · simp only [Btclog.appendAttr, Btclog.attrToken, if_neg h]
    rw [appendValue_shift, appendKey_shift,
      appendValue_shift ip (Btclog.appendKey ip d [] a.key) a.value]
    simp [List.append_assoc]

theorem foldl_appendAttr (ip : Nat → Bool) (d : Btclog.DefaultHandler) :
    ∀ (l : List Btclog.GoAttr) (buf : List Nat),
      l.foldl (fun b a => Btclog.appendAttr ip d b a) buf
        = buf ++ (l.map (Btclog.attrToken ip d)).flatten := by
  intro l
  induction l with
  | nil => intro buf; simp
  | cons a l ih =>
    intro buf
    simp only [List.foldl_cons, List.map_cons, List.flatten_cons]
    rw [appendAttr_shift, ih]
    simp [List.append_assoc]

/-- C5: at log time the context attributes (the full inherited chain, in
attachment order) are rendered before the attributes passed directly to the
call, with no deduplication (duplicate keys are all emitted, the context
occurrences first); concretely, a context carrying request_id=5 merged with
call-time key=value renders "request_id=5 key=value" in that order. -/
theorem c5_context_attrs_before_call_attrs :
    (∀ (ip : Nat → Bool) (cs : Nat → Nat → List Nat × Int)
      (d : Btclog.DefaultHandler) (t : Option (List Nat)) (lvl : Int)
      (msg : List Nat) (ctx attrs : List Btclog.GoAttr),
      Btclog.handleLine ip cs d
          { time := t, level := lvl, message := msg,
            attrs := Btclog.mergeAttrs ctx attrs }
        = (Btclog.handleLine ip cs d
            { time := t, level := lvl, message := msg, attrs := [] }).dropLast
          ++ (ctx.map (Btclog.attrToken ip d)).flatten
          ++ (attrs.map (Btclog.attrToken ip d)).flatten ++ [10])
    ∧ (∀ (ctx attrs : List Btclog.GoAttr) (k : List Nat),
        Btclog.countKey (Btclog.mergeAttrs ctx attrs) k
          = Btclog.countKey ctx k + Btclog.countKey attrs k)
    ∧ Btclog.handleLine Btclog.ipAscii Btclog.csNone Btclog.c1Handler
        { time := none, level := Btclog.LevelInfo,
          message := Btclog.goStr "Test context attributes",
          attrs := Btclog.mergeAttrs
            (Btclog.withCtx [] [{ key := Btclog.goStr "request_id",
                                  value := Btclog.GoValue.vint 5 }])
            [{ key := Btclog.goStr "key",
               value := Btclog.GoValue.vstr (Btclog.goStr "value") }] }
        = Btclog.goStr "[INF]: Test context attributes request_id=5 key=value\n" := by
  refine ⟨?_, ?_, by decide⟩
  · intro ip cs d t lvl msg ctx attrs
    simp only [Btclog.handleLine, Btclog.mergeAttrs]
    rw [foldl_appendAttr, foldl_appendAttr]
    simp [List.map_append, List.flatten_append, List.append_assoc,
      List.dropLast_concat]
  · intro ctx attrs k
    simp [Btclog.countKey, Btclog.mergeAttrs, List.countP_append]
